import Mathlib

/-!
Shallow embedding of `src/main.rs` of dseight/multi-material-single-nozzle.

The program is a line-oriented rewriter for slicer-generated G-code. A line is
modelled as its character sequence (`List Char`); the Rust side reads lines with
`BufRead::lines` (which strips the terminator) and re-emits each output line
followed by `"\n"`, so a run of the program corresponds to a function from a
list of lines to a list of lines. `str::starts_with` on an ASCII pattern is
character-for-character prefix testing, modelled by `List.isPrefixOf`;
`str::strip_prefix` is modelled by `stripPre?`. The `u32` field
`total_toolchanges` is modelled as a `Nat` together with an explicit
`< 2 ^ 32` bound inside `parseU32`, mirroring `u32::from_str` (which rejects,
rather than wraps, out-of-range numerals). The `u32` loop counter
`toolchanges` of `replace_unloads` is modelled as a `Nat` with the release
build's wrapping increment `(c + 1) % 2 ^ 32` (an overflow-checked build would
abort instead of wrapping). The `io::Result` return types of the Rust
functions can only carry errors produced by the underlying reader/writer,
never by line content, so the pure functions here are total.
-/

abbrev Line := List Char

def mUnload : Line := "; CP TOOLCHANGE UNLOAD".toList

def mWipe : Line := "; CP TOOLCHANGE WIPE".toList

def mStart : Line := "; CP TOOLCHANGE START".toList

def mEnd : Line := "; CP TOOLCHANGE END".toList

def m600 : Line := "M600".toList

def totalMarker : Line := "; total toolchanges = ".toList

def wipeMarker : Line := "; wipe_tower = ".toList

/-- Rust `line.starts_with("; CP TOOLCHANGE UNLOAD")`. -/
def isUnload (l : Line) : Bool := mUnload.isPrefixOf l

/-- Rust `line.starts_with("; CP TOOLCHANGE WIPE")`. -/
def isWipe (l : Line) : Bool := mWipe.isPrefixOf l

/-- Rust `line.starts_with("; CP TOOLCHANGE START")`. -/
def isStart (l : Line) : Bool := mStart.isPrefixOf l

/-- Rust `line.starts_with("; CP TOOLCHANGE END")`. -/
def isEnd (l : Line) : Bool := mEnd.isPrefixOf l

/-- Rust `str::strip_prefix`: `stripPre? p l = some r` iff `l = p ++ r`. -/
def stripPre? : Line → Line → Option Line
  | [], l => some l
  | _ :: _, [] => none
  | c :: p, d :: l => if c = d then stripPre? p l else none

/-- Numeric value of a digit string (base 10). -/
def digitsVal (s : Line) : Nat := s.foldl (fun a c => a * 10 + (c.toNat - 48)) 0

/-- Rust `u32::from_str` (`val.parse::<u32>()` in `update_from_line`): an optional
leading `+`, then one or more ASCII digits, and the value must fit in 32 bits;
anything else — including a numeral whose value is `≥ 2 ^ 32` — is a parse
error (`none`), never a wrapped or clamped value. -/
def parseU32 (s : Line) : Option Nat :=
  let t : Line := if s.head? = some '+' then s.tail else s
  if t.isEmpty then none
  else if t.all Char.isDigit then
    if digitsVal t < 2 ^ 32 then some (digitsVal t) else none
  else none

structure SlicerConfig where
  wipe_tower : Bool
  total_toolchanges : Nat
  deriving DecidableEq

/-- The second `if let` of `SlicerConfig::update_from_line` (the
`; wipe_tower = ` rule), reached when the first rule did not `return`. -/
def SlicerConfig.wipeRule (cfg : SlicerConfig) (l : Line) : SlicerConfig :=
  match stripPre? wipeMarker l with
  | some v =>
      { cfg with
        wipe_tower :=
          if v = "1".toList then true
          else if v = "0".toList then false
          else cfg.wipe_tower }
  | none => cfg

/-- Rust `SlicerConfig::update_from_line`: first the `; total toolchanges = ` rule
(which `return`s only when the remainder parses as a `u32`), then the
`; wipe_tower = ` rule. -/
def SlicerConfig.update_from_line (cfg : SlicerConfig) (l : Line) : SlicerConfig :=
  match stripPre? totalMarker l with
  | some v =>
      match parseU32 v with
      | some n => { cfg with total_toolchanges := n }
      | none => cfg.wipeRule l
  | none => cfg.wipeRule l

/-- Rust `SlicerConfig::read`: fold `update_from_line` over every line, starting
from the defaults `{ wipe_tower: false, total_toolchanges: 0 }`. -/
def SlicerConfig.read (lines : List Line) : SlicerConfig :=
  lines.foldl SlicerConfig.update_from_line ⟨false, 0⟩

/-- One loop iteration of `replace_toolchanges` (mode A): given the current
`skip_block` and the line, the new `skip_block` and the emitted output lines. -/
def rtStep (skip : Bool) (l : Line) : Bool × List Line :=
  if isStart l then (true, [])
  else if isEnd l then (false, [m600])
  else if skip then (skip, []) else (skip, [l])

/-- The `replace_toolchanges` loop from an arbitrary `skip_block` state,
returning the final state and the concatenated output. -/
def rtRun (skip : Bool) : List Line → Bool × List Line
  | [] => (skip, [])
  | l :: ls =>
      let s := rtStep skip l
      let r := rtRun s.1 ls
      (r.1, s.2 ++ r.2)

/-- Rust `replace_toolchanges` (mode A, used when `wipe_tower` is false). -/
def replace_toolchanges (lines : List Line) : List Line := (rtRun false lines).2

/-- The final `if !skip_block { write line }` of `replace_unloads`. -/
def passLine (skip : Bool) (tc : Nat) (l : Line) : (Bool × Nat) × List Line :=
  if skip then ((skip, tc), []) else ((skip, tc), [l])

/-- One loop iteration of `replace_unloads` (mode B). The state is
`(skip_block, toolchanges)`. The UNLOAD/WIPE tests come first (they are nested
inside START…END in the input), then the START test (which increments the
counter and, past `total_toolchanges`, starts swallowing), then the END test
(which past `total_toolchanges` stops swallowing), then plain emission. As in
the source, a START line with `toolchanges ≤ total` and an END line with
`toolchanges ≤ total` fall through to the emission test. The `toolchanges`
counter is a `u32` in the source: `toolchanges += 1` is the release build's
wrapping add, modelled by the explicit `% 2 ^ 32`. -/
def ruStep (total : Nat) (st : Bool × Nat) (l : Line) : (Bool × Nat) × List Line :=
  if isUnload l then ((true, st.2), [])
  else if isWipe l then ((false, st.2), [m600])
  else
    let tc := if isStart l then (st.2 + 1) % 2 ^ 32 else st.2
    if isStart l && decide (tc > total) then ((true, tc), [])
    else if isEnd l && decide (tc > total) then ((false, tc), [])
    else passLine st.1 tc l

/-- The `replace_unloads` loop from an arbitrary state. -/
def ruRun (total : Nat) (st : Bool × Nat) : List Line → (Bool × Nat) × List Line
  | [] => (st, [])
  | l :: ls =>
      let s := ruStep total st l
      let r := ruRun total s.1 ls
      (r.1, s.2 ++ r.2)

/-- Rust `replace_unloads` (mode B, used when `wipe_tower` is true). -/
def replace_unloads (lines : List Line) (total : Nat) : List Line :=
  (ruRun total (false, 0) lines).2

/-! ### Marker prefix facts -/

/-- Two incomparable patterns cannot both be prefixes of the same line. -/
theorem not_prefix_both {p q l : Line} (hp : p.isPrefixOf l = true)
    (hq : q.isPrefixOf l = true) (h1 : p.isPrefixOf q = false)
    (h2 : q.isPrefixOf p = false) : False := by
  rw [ List.isPrefixOf_iff_prefix] at hp hq
  rcases List.prefix_or_prefix_of_prefix hp hq with h | h
  · rw [← List.isPrefixOf_iff_prefix] at h
    rw [h1] at h
    exact Bool.false_ne_true h
  · rw [← List.isPrefixOf_iff_prefix] at h
    rw [h2] at h
    exact Bool.false_ne_true h

theorem isStart_of_isUnload {l : Line} (h : isUnload l = true) : isStart l = false := by
  cases hs : isStart l
  · rfl
  · exact (not_prefix_both h hs (by decide) (by decide)).elim

theorem isWipe_of_isUnload {l : Line} (h : isUnload l = true) : isWipe l = false := by
  cases hs : isWipe l
  · rfl
  · exact (not_prefix_both h hs (by decide) (by decide)).elim

theorem isEnd_of_isUnload {l : Line} (h : isUnload l = true) : isEnd l = false := by
  cases hs : isEnd l
  · rfl
  · exact (not_prefix_both h hs (by decide) (by decide)).elim

theorem isStart_of_isWipe {l : Line} (h : isWipe l = true) : isStart l = false := by
  cases hs : isStart l
  · rfl
  · exact (not_prefix_both h hs (by decide) (by decide)).elim

theorem isEnd_of_isWipe {l : Line} (h : isWipe l = true) : isEnd l = false := by
  cases hs : isEnd l
  · rfl
  · exact (not_prefix_both h hs (by decide) (by decide)).elim

theorem isEnd_of_isStart {l : Line} (h : isStart l = true) : isEnd l = false := by
  cases hs : isEnd l
  · rfl
  · exact (not_prefix_both h hs (by decide) (by decide)).elim

theorem isUnload_of_isStart {l : Line} (h : isStart l = true) : isUnload l = false := by
  cases hs : isUnload l
  · rfl
  · exact (not_prefix_both hs h (by decide) (by decide)).elim

theorem isWipe_of_isStart {l : Line} (h : isStart l = true) : isWipe l = false := by
  cases hs : isWipe l
  · rfl
  · exact (not_prefix_both hs h (by decide) (by decide)).elim

theorem isUnload_of_isEnd {l : Line} (h : isEnd l = true) : isUnload l = false := by
  cases hs : isUnload l
  · rfl
  · exact (not_prefix_both hs h (by decide) (by decide)).elim

theorem isWipe_of_isEnd {l : Line} (h : isEnd l = true) : isWipe l = false := by
  cases hs : isWipe l
  · rfl
  · exact (not_prefix_both hs h (by decide) (by decide)).elim

theorem isStart_of_isEnd {l : Line} (h : isEnd l = true) : isStart l = false := by
  cases hs : isStart l
  · rfl
  · exact (not_prefix_both hs h (by decide) (by decide)).elim

/-! ### `stripPre?` facts -/

theorem stripPre?_append (p r : Line) : stripPre? p (p ++ r) = some r := by
  induction p with
  | nil => rfl
  | cons c p ih => simp [stripPre?, ih]

theorem eq_append_of_stripPre? {p l r : Line} (h : stripPre? p l = some r) :
    l = p ++ r := by
  induction p generalizing l with
  | nil =>
      simp only [stripPre?, Option.some.injEq] at h
      simpa using h
  | cons c p ih =>
      cases l with
      | nil => simp [stripPre?] at h
      | cons d l =>
          by_cases hcd : c = d
          · subst hcd
            simp only [stripPre?, if_pos rfl] at h
            simpa using ih h
          · simp [stripPre?, hcd] at h

theorem isPrefixOf_of_stripPre? {p l r : Line} (h : stripPre? p l = some r) :
    p.isPrefixOf l = true := by
  rw [ List.isPrefixOf_iff_prefix]
  exact ⟨r, (eq_append_of_stripPre? h).symm⟩

/-- A line matching the `; total toolchanges = ` rule cannot also match the
`; wipe_tower = ` rule: the two literal markers are incomparable. -/
theorem strip_wipe_of_strip_total {l v : Line}
    (h : stripPre? totalMarker l = some v) : stripPre? wipeMarker l = none := by
  cases hw : stripPre? wipeMarker l with
  | none => rfl
  | some w =>
      exact (not_prefix_both (isPrefixOf_of_stripPre? h) (isPrefixOf_of_stripPre? hw)
        (by decide) (by decide)).elim

theorem strip_total_of_strip_wipe {l v : Line}
    (h : stripPre? wipeMarker l = some v) : stripPre? totalMarker l = none := by
  cases hw : stripPre? totalMarker l with
  | none => rfl
  | some w =>
      exact (not_prefix_both (isPrefixOf_of_stripPre? h) (isPrefixOf_of_stripPre? hw)
        (by decide) (by decide)).elim

/-! ### Configuration scanning (C4, C9, C10) -/

/-- The boolean a single line contributes to `wipe_tower`, if any: the
remainder after `; wipe_tower = ` must be exactly `1` or `0`. -/
def wipeVal (l : Line) : Option Bool :=
  match stripPre? wipeMarker l with
  | some v =>
      if v = "1".toList then some true
      else if v = "0".toList then some false
      else none
  | none => none

/-- The number a single line contributes to `total_toolchanges`, if any: the
remainder after `; total toolchanges = ` must parse as a `u32`. -/
def totVal (l : Line) : Option Nat := (stripPre? totalMarker l).bind parseU32

/-- A single `update_from_line` call overwrites each field with the value its
rule extracts from the line, keeping the old value when the rule does not
apply. -/
theorem update_from_line_eq (cfg : SlicerConfig) (l : Line) :
    cfg.update_from_line l =
      ⟨(wipeVal l).getD cfg.wipe_tower, (totVal l).getD cfg.total_toolchanges⟩ := by
  unfold SlicerConfig.update_from_line wipeVal totVal SlicerConfig.wipeRule
  cases ht : stripPre? totalMarker l with
  | some v =>
      cases hp : parseU32 v with
      | some n => simp [ht, hp, strip_wipe_of_strip_total ht]
      | none => simp [ht, hp, strip_wipe_of_strip_total ht]
  | none =>
      cases hw : stripPre? wipeMarker l with
      | none => simp [ht, hw]
      | some v =>
          by_cases h1 : v = ['1']
          · simp [ht, hw, h1]
          · by_cases h0 : v = ['0'] <;> simp [ht, hw, h1, h0]

theorem read_foldl (cfg : SlicerConfig) (lines : List Line) :
    lines.foldl SlicerConfig.update_from_line cfg =
      ⟨(lines.filterMap wipeVal).getLastD cfg.wipe_tower,
       (lines.filterMap totVal).getLastD cfg.total_toolchanges⟩ := by
  induction lines generalizing cfg with
  | nil => rfl
  | cons l ls ih =>
      rw [List.foldl_cons, ih, update_from_line_eq, List.filterMap_cons,
        List.filterMap_cons]
      cases hw : wipeVal l <;> cases ht : totVal l <;>
        simp only [hw, ht, Option.getD_some, Option.getD_none, List.getLastD_cons]

/-- C4: config scanning is total over any line stream (it is a plain fold that
consumes every line), and its result is last-write-wins per field:
`wipe_tower` is the boolean carried by the last line of the form
`; wipe_tower = v` with `v` exactly `1` or `0` (default `false` when there is
none, lines with any other remainder contribute nothing), and
`total_toolchanges` is the number carried by the last line of the form
`; total toolchanges = n` whose remainder parses as a `u32` (default `0` when
there is none, unparsable remainders contribute nothing); values are
overwritten, never summed. -/
theorem config_read_lastWriteWins (lines : List Line) :
    SlicerConfig.read lines =
      ⟨(lines.filterMap wipeVal).getLastD false,
       (lines.filterMap totVal).getLastD 0⟩ :=
  read_foldl ⟨false, 0⟩ lines

/-- C9: a `; total toolchanges = ` remainder that does not parse as a `u32` —
in particular any digit string whose value is at least `2 ^ 32` — leaves the
whole config unchanged: the value is rejected, never wrapped or clamped. -/
theorem total_toolchanges_no_wrap (cfg : SlicerConfig) (s : Line) :
    (parseU32 s = none → cfg.update_from_line (totalMarker ++ s) = cfg) ∧
      (s ≠ [] → s.all Char.isDigit = true → 2 ^ 32 ≤ digitsVal s →
        parseU32 s = none) := by
  constructor
  · intro hp
    have ht : stripPre? totalMarker (totalMarker ++ s) = some s := stripPre?_append _ _
    unfold SlicerConfig.update_from_line SlicerConfig.wipeRule
    simp only [ht, hp, strip_wipe_of_strip_total ht]
  · intro hne hdig hval
    simp only [parseU32]
    have hplus : ¬s.head? = some '+' := by
      cases s with
      | nil => simp at hne
      | cons c r =>
          simp only [List.head?_cons, Option.some.injEq]
          intro hc
          subst hc
          simp [List.all_cons] at hdig
    rw [if_neg hplus]
    rw [if_neg (by simpa [List.isEmpty_iff] using hne)]
    rw [if_pos hdig, if_neg (by omega)]

/-- C9 witness at the concrete remainder `4294967296 = 2 ^ 32`. -/
theorem total_toolchanges_no_wrap_witness :
    parseU32 "4294967296".toList = none ∧
      SlicerConfig.update_from_line ⟨true, 7⟩ (totalMarker ++ "4294967296".toList) =
        ⟨true, 7⟩ := by
  have h := total_toolchanges_no_wrap ⟨true, 7⟩ "4294967296".toList
  have hp := h.2 (by decide) (by decide) (by decide)
  exact ⟨hp, h.1 hp⟩

/-- C10: a single `update_from_line` changes at most one field: a line carrying
the `; total toolchanges = ` marker never changes `wipe_tower` (even when its
remainder fails to parse, since no line can carry both markers), a line
matching neither marker changes nothing, and in general at least one of the
two fields is left untouched. -/
theorem update_from_line_frame (cfg : SlicerConfig) (l : Line) :
    ((stripPre? totalMarker l).isSome = true →
        (cfg.update_from_line l).wipe_tower = cfg.wipe_tower) ∧
      (stripPre? totalMarker l = none → stripPre? wipeMarker l = none →
        cfg.update_from_line l = cfg) ∧
      ((cfg.update_from_line l).wipe_tower = cfg.wipe_tower ∨
        (cfg.update_from_line l).total_toolchanges = cfg.total_toolchanges) := by
  rw [update_from_line_eq]
  refine ⟨?_, ?_, ?_⟩
  · intro ht
    cases hts : stripPre? totalMarker l with
    | none => rw [hts] at ht; simp at ht
    | some v => simp [wipeVal, strip_wipe_of_strip_total hts]
  · intro ht hw
    simp [wipeVal, totVal, ht, hw]
  · cases hw : wipeVal l with
    | none => left; simp
    | some b =>
        right
        have hws : ∃ v, stripPre? wipeMarker l = some v := by
          unfold wipeVal at hw
          cases hws : stripPre? wipeMarker l with
          | none => rw [hws] at hw; simp at hw
          | some v => exact ⟨v, rfl⟩
        obtain ⟨v, hv⟩ := hws
        simp [totVal, strip_total_of_strip_wipe hv]

/-- C10 witness: a `; total toolchanges = ` line with unparsable remainder
leaves `wipe_tower` alone, and an unrelated line changes nothing. -/
theorem update_from_line_frame_witness :
    (stripPre? totalMarker "; total toolchanges = abc".toList).isSome = true ∧
      (SlicerConfig.update_from_line ⟨true, 5⟩ "; total toolchanges = abc".toList).wipe_tower
        = true ∧
      SlicerConfig.update_from_line ⟨true, 5⟩ "G1 X10".toList = ⟨true, 5⟩ := by
  refine ⟨by decide, ?_, ?_⟩
  · exact (update_from_line_frame ⟨true, 5⟩ "; total toolchanges = abc".toList).1 (by decide)
  · exact (update_from_line_frame ⟨true, 5⟩ "G1 X10".toList).2.1 (by decide) (by decide)

/-! ### Mode A: basic run lemmas (C5, C6) -/

/-- Mode A passes a stream with no START/END markers through unchanged. -/
theorem rtRun_id {ls : List Line}
    (h : ∀ l ∈ ls, isStart l = false ∧ isEnd l = false) :
    rtRun false ls = (false, ls) := by
  induction ls with
  | nil => rfl
  | cons l ls ih =>
      obtain ⟨hs, he⟩ := h l (List.mem_cons_self l ls)
      have ih' := ih fun x hx => h x (List.mem_cons_of_mem l hx)
      simp [rtRun, rtStep, hs, he, ih']

/-- C5: on an input containing zero sentinel markers (no line starting with any
of the four `; CP TOOLCHANGE …` prefixes), mode A's output is the input,
line for line — hence byte-identical once each line is newline-terminated. -/
theorem replace_toolchanges_identity (lines : List Line)
    (h : ∀ l ∈ lines, isUnload l = false ∧ isWipe l = false ∧
      isStart l = false ∧ isEnd l = false) :
    replace_toolchanges lines = lines := by
  unfold replace_toolchanges
  rw [rtRun_id fun l hl => ⟨(h l hl).2.2.1, (h l hl).2.2.2⟩]

/-- C5 witness on a concrete marker-free stream. -/
theorem replace_toolchanges_identity_witness :
    (∀ l ∈ ["G1 X10".toList, "G1 Y10".toList], isUnload l = false ∧
      isWipe l = false ∧ isStart l = false ∧ isEnd l = false) ∧
    replace_toolchanges ["G1 X10".toList, "G1 Y10".toList] =
      ["G1 X10".toList, "G1 Y10".toList] :=
  ⟨by decide, replace_toolchanges_identity _ (by decide)⟩

/-- Every line mode A emits — from any state — is either `M600` or a
passthrough line that failed both marker tests; none is a START or END line. -/
theorem rtRun_no_markers (ls : List Line) (skip : Bool) :
    ∀ l ∈ (rtRun skip ls).2, isStart l = false ∧ isEnd l = false := by
  induction ls generalizing skip with
  | nil => intro l hl; simp [rtRun] at hl
  | cons l ls ih =>
      intro x hx
      rw [rtRun] at hx
      rcases List.mem_append.1 hx with hx | hx
      · revert hx
        unfold rtStep
        cases hs : isStart l
        · cases he : isEnd l
          · cases skip <;> intro hx <;> simp at hx
            · subst hx; exact ⟨hs, he⟩
          · intro hx
            simp at hx
            subst hx
            exact ⟨by decide, by decide⟩
        · intro hx; simp at hx
      · exact ih _ x hx

/-- C6: mode A is idempotent on every input — its output contains no START/END
markers, so a second run is the identity on it. -/
theorem replace_toolchanges_idempotent (lines : List Line) :
    replace_toolchanges (replace_toolchanges lines) = replace_toolchanges lines := by
  unfold replace_toolchanges
  rw [rtRun_id (rtRun_no_markers lines false)]

/-! ### Mode A against the spec's block description (C1) -/

/-- Well-formedness for mode A, as C1 assumes it: the START and END marker
lines strictly alternate, beginning with START and ending with END (balanced,
non-nested blocks). `b` tells whether we are currently inside a block. -/
def wfA : Bool → List Line → Bool
  | b, [] => !b
  | false, l :: ls =>
      if isStart l then wfA true ls
      else if isEnd l then false
      else wfA false ls
  | true, l :: ls =>
      if isStart l then false
      else if isEnd l then wfA false ls
      else wfA true ls

/-- Modelled from the spec: the transform C1 describes for mode A — each
START…END region collapses to exactly one `M600` line regardless of its
content, and every line outside the regions is emitted verbatim in order. -/
def specToolchanges : Bool → List Line → List Line
  | _, [] => []
  | false, l :: ls =>
      if isStart l then specToolchanges true ls
      else l :: specToolchanges false ls
  | true, l :: ls =>
      if isEnd l then m600 :: specToolchanges false ls
      else specToolchanges true ls

/-- The input lines lying outside the START…END regions. -/
def outsideA : Bool → List Line → List Line
  | _, [] => []
  | false, l :: ls =>
      if isStart l then outsideA true ls
      else l :: outsideA false ls
  | true, l :: ls =>
      if isEnd l then outsideA false ls
      else outsideA true ls

/-- On a well-formed stream mode A computes exactly the spec's transform, and
`skip_block` ends `false`. -/
theorem rtRun_spec : ∀ (ls : List Line) (b : Bool), wfA b ls = true →
    rtRun b ls = (false, specToolchanges b ls) := by
  intro ls
  induction ls with
  | nil =>
      intro b hb
      cases b
      · rfl
      · simp [wfA] at hb
  | cons l ls ih =>
      intro b hb
      cases b
      · cases hs : isStart l
        · cases he : isEnd l
          · rw [wfA, if_neg (by simp [hs]), if_neg (by simp [he])] at hb
            simp [rtRun, rtStep, hs, he, specToolchanges, ih false hb]
          · rw [wfA, if_neg (by simp [hs]), if_pos (by simp [he])] at hb
            exact absurd hb (by simp)
        · rw [wfA, if_pos (by simp [hs])] at hb
          simp [rtRun, rtStep, hs, specToolchanges, ih true hb]
      · cases hs : isStart l
        · cases he : isEnd l
          · rw [wfA, if_neg (by simp [hs]), if_neg (by simp [he])] at hb
            simp [rtRun, rtStep, hs, he, specToolchanges, ih true hb]
          · rw [wfA, if_neg (by simp [hs]), if_pos (by simp [he])] at hb
            simp [rtRun, rtStep, hs, he, specToolchanges, ih false hb]
        · rw [wfA, if_pos (by simp [hs])] at hb
          exact absurd hb (by simp)

/-- The `M600` count of the spec transform: one per block (counted by its START
marker, plus one for the block currently open), plus the outside lines that
are already literally `M600`. -/
theorem specToolchanges_count : ∀ (ls : List Line) (b : Bool), wfA b ls = true →
    (specToolchanges b ls).count m600 =
      ls.countP isStart + (if b then 1 else 0) + (outsideA b ls).count m600 := by
  intro ls
  induction ls with
  | nil =>
      intro b hb
      cases b
      · rfl
      · simp [wfA] at hb
  | cons l ls ih =>
      intro b hb
      cases b
      · cases hs : isStart l
        · cases he : isEnd l
          · rw [wfA, if_neg (by simp [hs]), if_neg (by simp [he])] at hb
            simp [specToolchanges, outsideA, hs, he, List.countP_cons, List.count_cons,
              ih false hb]
            omega
          · rw [wfA, if_neg (by simp [hs]), if_pos (by simp [he])] at hb
            exact absurd hb (by simp)
        · rw [wfA, if_pos (by simp [hs])] at hb
          simp [specToolchanges, outsideA, hs, List.countP_cons, ih true hb]
      · cases hs : isStart l
        · cases he : isEnd l
          · rw [wfA, if_neg (by simp [hs]), if_neg (by simp [he])] at hb
            simp [specToolchanges, outsideA, hs, he, List.countP_cons, ih true hb]
          · rw [wfA, if_neg (by simp [hs]), if_pos (by simp [he])] at hb
            have hm : (m600 == m600) = true := by decide
            simp [specToolchanges, outsideA, hs, he, List.countP_cons, List.count_cons,
              hm, ih false hb]
            omega
        · rw [wfA, if_pos (by simp [hs])] at hb
          exact absurd hb (by simp)

/-- C1 counterexample to the claim as stated: the two-line input consisting of
a literal `M600` line and a stray UNLOAD marker line has strictly alternating
(namely zero) START/END markers, yet mode A's output has one `M600` line and
zero START markers exist in the input, and the output contains sentinel marker
text (the UNLOAD line passes through verbatim). -/
theorem replace_toolchanges_claim_cex :
    wfA false ["M600".toList, "; CP TOOLCHANGE UNLOAD".toList] = true ∧
      ¬((replace_toolchanges ["M600".toList, "; CP TOOLCHANGE UNLOAD".toList]).count m600 =
        (["M600".toList, "; CP TOOLCHANGE UNLOAD".toList] : List Line).countP isStart) ∧
      "; CP TOOLCHANGE UNLOAD".toList ∈
        replace_toolchanges ["M600".toList, "; CP TOOLCHANGE UNLOAD".toList] ∧
      isUnload "; CP TOOLCHANGE UNLOAD".toList = true := by
  refine ⟨by decide, by decide, by decide, by decide⟩

/-- C1 (amended): on inputs whose START/END markers strictly alternate
(balanced, non-nested blocks), mode A replaces each START…END region with
exactly one `M600` line and emits every line outside those regions verbatim in
order (the equality with `specToolchanges`); consequently the output has
exactly as many `M600` lines as the input has START markers plus outside lines
already equal to `M600`, and no START or END marker text survives (UNLOAD/WIPE
marker lines outside the regions pass through verbatim). -/
theorem replace_toolchanges_blocks (lines : List Line) (h : wfA false lines = true) :
    replace_toolchanges lines = specToolchanges false lines ∧
      (replace_toolchanges lines).count m600 =
        lines.countP isStart + (outsideA false lines).count m600 ∧
      ∀ x ∈ replace_toolchanges lines, isStart x = false ∧ isEnd x = false := by
  have hr : replace_toolchanges lines = specToolchanges false lines := by
    unfold replace_toolchanges
    rw [rtRun_spec lines false h]
  refine ⟨hr, ?_, fun x hx => rtRun_no_markers lines false x hx⟩
  rw [hr]
  have := specToolchanges_count lines false h
  simpa using this

/-- C1 witness: a stream with two blocks and surrounding plain lines. -/
theorem replace_toolchanges_blocks_witness :
    wfA false ["a".toList, "; CP TOOLCHANGE START".toList,
        "; CP TOOLCHANGE UNLOAD".toList, "; CP TOOLCHANGE WIPE".toList,
        "; CP TOOLCHANGE END".toList, "b".toList] = true ∧
      replace_toolchanges ["a".toList, "; CP TOOLCHANGE START".toList,
        "; CP TOOLCHANGE UNLOAD".toList, "; CP TOOLCHANGE WIPE".toList,
        "; CP TOOLCHANGE END".toList, "b".toList] =
        specToolchanges false ["a".toList, "; CP TOOLCHANGE START".toList,
          "; CP TOOLCHANGE UNLOAD".toList, "; CP TOOLCHANGE WIPE".toList,
          "; CP TOOLCHANGE END".toList, "b".toList] :=
  ⟨by decide, (replace_toolchanges_blocks _ (by decide)).1⟩

/-! ### Mode B against the spec's block description (C2) -/

/-- Where a mode-B scan currently stands: outside any block, inside a kept
block (one of the first `total_toolchanges`), inside its UNLOAD…WIPE
sub-region, or inside a beyond-threshold block that is to be dropped. -/
inductive BMode where
  | out
  | inK
  | inU
  | drop
  deriving DecidableEq

/-- The `skip_block` value of `replace_unloads` in each scan position. -/
def stSkip : BMode → Bool
  | .out => false
  | .inK => false
  | .inU => true
  | .drop => true

/-- Well-formedness for mode B: blocks strictly alternate START…END; a kept
block's interior is plain lines plus properly nested UNLOAD…WIPE sub-regions
(whose interiors are plain); a beyond-threshold block's interior holds no WIPE
and no nested START (plain lines and UNLOAD markers are allowed — the real
slicer's trailing priming block contains an UNLOAD with no WIPE); no marker
appears outside this structure. `seen` counts START markers consumed so far. -/
def wfB (total : Nat) : BMode → Nat → List Line → Bool
  | .out, _, [] => true
  | .inK, _, [] => false
  | .inU, _, [] => false
  | .drop, _, [] => false
  | .out, seen, l :: ls =>
      if isUnload l || isWipe l then false
      else if isStart l then
        if seen + 1 > total then wfB total .drop (seen + 1) ls
        else wfB total .inK (seen + 1) ls
      else if isEnd l then false
      else wfB total .out seen ls
  | .inK, seen, l :: ls =>
      if isUnload l then wfB total .inU seen ls
      else if isWipe l || isStart l then false
      else if isEnd l then wfB total .out seen ls
      else wfB total .inK seen ls
  | .inU, seen, l :: ls =>
      if isUnload l then false
      else if isWipe l then wfB total .inK seen ls
      else if isStart l || isEnd l then false
      else wfB total .inU seen ls
  | .drop, seen, l :: ls =>
      if isUnload l then wfB total .drop seen ls
      else if isWipe l || isStart l then false
      else if isEnd l then wfB total .out seen ls
      else wfB total .drop seen ls

/-- Modelled from the spec: the transform C2 describes for mode B — for the
first `total_toolchanges` blocks the UNLOAD…WIPE sub-region collapses to one
`M600` while the START/END framing and every other line of the block survive
verbatim; every further block is deleted in its entirety; lines outside blocks
pass through. -/
def specUnloads (total : Nat) : BMode → Nat → List Line → List Line
  | _, _, [] => []
  | .out, seen, l :: ls =>
      if isStart l then
        if seen + 1 > total then specUnloads total .drop (seen + 1) ls
        else l :: specUnloads total .inK (seen + 1) ls
      else l :: specUnloads total .out seen ls
  | .inK, seen, l :: ls =>
      if isUnload l then specUnloads total .inU seen ls
      else if isEnd l then l :: specUnloads total .out seen ls
      else l :: specUnloads total .inK seen ls
  | .inU, seen, l :: ls =>
      if isWipe l then m600 :: specUnloads total .inK seen ls
      else specUnloads total .inU seen ls
  | .drop, seen, l :: ls =>
      if isEnd l then specUnloads total .out seen ls
      else specUnloads total .drop seen ls

/-- Number of START marker lines in a stream. -/
def cStart (ls : List Line) : Nat := ls.countP isStart

theorem cStart_cons_bound {seen : Nat} {l : Line} {ls : List Line}
    (hb : seen + cStart (l :: ls) < 2 ^ 32) : seen + cStart ls < 2 ^ 32 := by
  simp only [cStart, List.countP_cons] at hb ⊢
  omega

theorem cStart_cons_bound_start {seen : Nat} {l : Line} {ls : List Line}
    (h3 : isStart l = true) (hb : seen + cStart (l :: ls) < 2 ^ 32) :
    seen + 1 + cStart ls < 2 ^ 32 := by
  simp only [cStart] at hb ⊢
  rw [List.countP_cons_of_pos _ _ h3] at hb
  omega

/-- On a well-formed stream holding fewer START lines than would wrap the
`u32` counter, `replace_unloads` computes exactly the spec transform, from any
scan position whose state satisfies the mode invariants (`seen ≤ total` inside
kept blocks, `seen > total` inside dropped ones). -/
theorem ruRun_spec (total : Nat) : ∀ (ls : List Line) (m : BMode) (seen : Nat),
    wfB total m seen ls = true →
    ((m = .inK ∨ m = .inU) → seen ≤ total) →
    (m = .drop → total < seen) →
    seen + cStart ls < 2 ^ 32 →
    (ruRun total (stSkip m, seen) ls).2 = specUnloads total m seen ls := by
  intro ls
  induction ls with
  | nil =>
      intro m seen hw hk hd hb
      cases m
      · rfl
      · simp [wfB] at hw
      · simp [wfB] at hw
      · simp [wfB] at hw
  | cons l ls ih =>
      intro m seen hw hk hd hb
      cases m with
      | out =>
          cases h1 : isUnload l
          · cases h2 : isWipe l
            · cases h3 : isStart l
              · cases h4 : isEnd l
                · rw [wfB, if_neg (by simp [h1, h2]), if_neg (by simp [h3]),
                    if_neg (by simp [h4])] at hw
                  simp [ruRun, ruStep, passLine, stSkip, specUnloads, h1, h2, h3, h4]
                  exact ih .out seen hw (by simp) (by simp) (cStart_cons_bound hb)
                · rw [wfB, if_neg (by simp [h1, h2]), if_neg (by simp [h3]),
                    if_pos (by simp [h4])] at hw
                  exact absurd hw (by simp)
              · have hmod : (seen + 1) % 4294967296 = seen + 1 :=
                  Nat.mod_eq_of_lt (by
                    have h5 := cStart_cons_bound_start h3 hb
                    have h6 : (2 : Nat) ^ 32 = 4294967296 := rfl
                    omega)
                by_cases hgt : seen + 1 > total
                · rw [wfB, if_neg (by simp [h1, h2]), if_pos (by simp [h3]),
                    if_pos hgt] at hw
                  simp [ruRun, ruStep, passLine, stSkip, specUnloads, h1, h2, h3,
                    hmod, hgt]
                  exact ih .drop (seen + 1) hw (by simp) (fun _ => hgt)
                    (cStart_cons_bound_start h3 hb)
                · rw [wfB, if_neg (by simp [h1, h2]), if_pos (by simp [h3]),
                    if_neg hgt] at hw
                  simp [ruRun, ruStep, passLine, stSkip, specUnloads, h1, h2, h3,
                    hmod, hgt]
                  exact ih .inK (seen + 1) hw (fun _ => by omega) (by simp)
                    (cStart_cons_bound_start h3 hb)
            · rw [wfB, if_pos (by simp [h2])] at hw
              exact absurd hw (by simp)
          · rw [wfB, if_pos (by simp [h1])] at hw
            exact absurd hw (by simp)
      | inK =>
          have hle : seen ≤ total := hk (Or.inl rfl)
          cases h1 : isUnload l
          · cases h2 : isWipe l
            · cases h3 : isStart l
              · cases h4 : isEnd l
                · rw [wfB, if_neg (by simp [h1]), if_neg (by simp [h2, h3]),
                    if_neg (by simp [h4])] at hw
                  simp [ruRun, ruStep, passLine, stSkip, specUnloads, h1, h2, h3, h4]
                  exact ih .inK seen hw (fun _ => hle) (by simp) (cStart_cons_bound hb)
                · rw [wfB, if_neg (by simp [h1]), if_neg (by simp [h2, h3]),
                    if_pos (by simp [h4])] at hw
                  have hgt : ¬seen > total := by omega
                  simp [ruRun, ruStep, passLine, stSkip, specUnloads, h1, h2, h3, h4,
                    hgt]
                  exact ih .out seen hw (by simp) (by simp) (cStart_cons_bound hb)
              · rw [wfB, if_neg (by simp [h1]), if_pos (by simp [h3])] at hw
                exact absurd hw (by simp)
            · rw [wfB, if_neg (by simp [h1]), if_pos (by simp [h2])] at hw
              exact absurd hw (by simp)
          · rw [wfB, if_pos (by simp [h1])] at hw
            simp [ruRun, ruStep, passLine, stSkip, specUnloads, h1,
              isEnd_of_isUnload h1]
            exact ih .inU seen hw (fun _ => hle) (by simp) (cStart_cons_bound hb)
      | inU =>
          have hle : seen ≤ total := hk (Or.inr rfl)
          cases h1 : isUnload l
          · cases h2 : isWipe l
            · cases h3 : isStart l
              · cases h4 : isEnd l
                · rw [wfB, if_neg (by simp [h1]), if_neg (by simp [h2]),
                    if_neg (by simp [h3, h4])] at hw
                  simp [ruRun, ruStep, passLine, stSkip, specUnloads, h1, h2, h3, h4]
                  exact ih .inU seen hw (fun _ => hle) (by simp) (cStart_cons_bound hb)
                · rw [wfB, if_neg (by simp [h1]), if_neg (by simp [h2]),
                    if_pos (by simp [h4])] at hw
                  exact absurd hw (by simp)
              · rw [wfB, if_neg (by simp [h1]), if_neg (by simp [h2]),
                  if_pos (by simp [h3])] at hw
                exact absurd hw (by simp)
            · rw [wfB, if_neg (by simp [h1]), if_pos (by simp [h2])] at hw
              simp [ruRun, ruStep, passLine, stSkip, specUnloads, h1, h2,
                isEnd_of_isWipe h2]
              exact ih .inK seen hw (fun _ => hle) (by simp) (cStart_cons_bound hb)
          · rw [wfB, if_pos (by simp [h1])] at hw
            exact absurd hw (by simp)
      | drop =>
          have hgt : total < seen := hd rfl
          cases h1 : isUnload l
          · cases h2 : isWipe l
            · cases h3 : isStart l
              · cases h4 : isEnd l
                · rw [wfB, if_neg (by simp [h1]), if_neg (by simp [h2, h3]),
                    if_neg (by simp [h4])] at hw
                  simp [ruRun, ruStep, passLine, stSkip, specUnloads, h1, h2, h3, h4]
                  exact ih .drop seen hw (by simp) (fun _ => hgt) (cStart_cons_bound hb)
                · rw [wfB, if_neg (by simp [h1]), if_neg (by simp [h2, h3]),
                    if_pos (by simp [h4])] at hw
                  simp [ruRun, ruStep, passLine, stSkip, specUnloads, h1, h2, h3, h4,
                    hgt]
                  exact ih .out seen hw (by simp) (by simp) (cStart_cons_bound hb)
              · rw [wfB, if_neg (by simp [h1]), if_pos (by simp [h3])] at hw
                exact absurd hw (by simp)
            · rw [wfB, if_neg (by simp [h1]), if_pos (by simp [h2])] at hw
              exact absurd hw (by simp)
          · rw [wfB, if_pos (by simp [h1])] at hw
            simp [ruRun, ruStep, passLine, stSkip, specUnloads, h1,
              isEnd_of_isUnload h1]
            exact ih .drop seen hw (by simp) (fun _ => hgt) (cStart_cons_bound hb)

/-- C2 counterexample to the claim as stated: with `total_toolchanges = 0` the
single (hence beyond-threshold) block `START, UNLOAD, WIPE, x, END` — a fully
block-structured input, indeed exactly the shape of a kept block (it is
well-formed for threshold 1) — is not deleted in its entirety: the WIPE line
inside it still emits `M600` and clears `skip_block`, so the block's content
line `x` survives in the output. -/
theorem replace_unloads_claim_cex :
    wfB 1 .out 0 ["; CP TOOLCHANGE START".toList, "; CP TOOLCHANGE UNLOAD".toList,
        "; CP TOOLCHANGE WIPE".toList, "x".toList, "; CP TOOLCHANGE END".toList] = true ∧
      replace_unloads ["; CP TOOLCHANGE START".toList, "; CP TOOLCHANGE UNLOAD".toList,
        "; CP TOOLCHANGE WIPE".toList, "x".toList, "; CP TOOLCHANGE END".toList] 0 =
        [m600, "x".toList] ∧
      "x".toList ∈ replace_unloads ["; CP TOOLCHANGE START".toList,
        "; CP TOOLCHANGE UNLOAD".toList, "; CP TOOLCHANGE WIPE".toList, "x".toList,
        "; CP TOOLCHANGE END".toList] 0 := by
  refine ⟨by decide, by decide, by decide⟩

/-- C2 (amended): with threshold `N = total_toolchanges`, on well-formed
inputs — alternating START…END blocks whose kept interiors are plain lines
plus UNLOAD…WIPE sub-regions, and whose beyond-threshold interiors contain no
WIPE marker (a WIPE inside a beyond-threshold block would re-emit `M600` and
re-enable output until the block's END) — mode B collapses each UNLOAD…WIPE
sub-region of the first `N` blocks to exactly one `M600`, keeps those blocks'
START/END framing and every other line verbatim, and deletes each
`(N+1)`-th-or-later block in its entirety, as `specUnloads` states. -/
theorem replace_unloads_blocks (total : Nat) (lines : List Line)
    (h : wfB total .out 0 lines = true) (hb : cStart lines < 2 ^ 32) :
    replace_unloads lines total = specUnloads total .out 0 lines :=
  ruRun_spec total lines .out 0 h (by simp) (by simp) (by omega)

/-- C2 witness: one kept block (with an UNLOAD…WIPE sub-region) and one
beyond-threshold block (UNLOAD, no WIPE), threshold 1. -/
theorem replace_unloads_blocks_witness :
    wfB 1 .out 0 ["a".toList, "; CP TOOLCHANGE START".toList, "b".toList,
        "; CP TOOLCHANGE UNLOAD".toList, "c".toList, "; CP TOOLCHANGE WIPE".toList,
        "d".toList, "; CP TOOLCHANGE END".toList, "e".toList,
        "; CP TOOLCHANGE START".toList, "; CP TOOLCHANGE UNLOAD".toList,
        "f".toList, "; CP TOOLCHANGE END".toList, "g".toList] = true ∧
      replace_unloads ["a".toList, "; CP TOOLCHANGE START".toList, "b".toList,
          "; CP TOOLCHANGE UNLOAD".toList, "c".toList, "; CP TOOLCHANGE WIPE".toList,
          "d".toList, "; CP TOOLCHANGE END".toList, "e".toList,
          "; CP TOOLCHANGE START".toList, "; CP TOOLCHANGE UNLOAD".toList,
          "f".toList, "; CP TOOLCHANGE END".toList, "g".toList] 1 =
        specUnloads 1 .out 0 ["a".toList, "; CP TOOLCHANGE START".toList, "b".toList,
          "; CP TOOLCHANGE UNLOAD".toList, "c".toList, "; CP TOOLCHANGE WIPE".toList,
          "d".toList, "; CP TOOLCHANGE END".toList, "e".toList,
          "; CP TOOLCHANGE START".toList, "; CP TOOLCHANGE UNLOAD".toList,
          "f".toList, "; CP TOOLCHANGE END".toList, "g".toList] :=
  ⟨by decide, replace_unloads_blocks 1 _ (by decide) (by decide)⟩

/-! ### Mode B `M600` accounting (C3) -/

/-- A single mode-B step emits an `M600` line exactly on WIPE lines, provided
the consumed line is not itself literally `M600` (a passthrough `M600` line
would also count). -/
theorem ruStep_m600_count (total : Nat) (st : Bool × Nat) (l : Line)
    (hl : l ≠ m600) :
    ((ruStep total st l).2).count m600 = if isWipe l then 1 else 0 := by
  cases h1 : isUnload l
  · cases h2 : isWipe l
    · cases h3 : isStart l
      · cases h4 : isEnd l
        · cases hsk : st.1 <;>
            simp [ruStep, passLine, h1, h2, h3, h4, hsk, hl, List.count_cons]
        · by_cases hgt : st.2 > total <;> cases hsk : st.1 <;>
            simp [ruStep, passLine, h1, h2, h3, h4, hgt, hsk, hl, List.count_cons]
      · by_cases hgt : (st.2 + 1) % 4294967296 > total
        · simp [ruStep, h1, h2, h3, hgt]
        · cases hsk : st.1 <;>
            simp [ruStep, passLine, h1, h2, h3, isEnd_of_isStart h3, hgt, hsk, hl,
              List.count_cons]
    · simp [ruStep, h1, h2]
  · simp [ruStep, h1, isWipe_of_isUnload h1]

/-- From any state, mode B's output has exactly one `M600` line per WIPE input
line, when no input line is itself literally `M600`. -/
theorem ruRun_m600_count (total : Nat) : ∀ (ls : List Line) (st : Bool × Nat),
    (∀ l ∈ ls, l ≠ m600) →
    ((ruRun total st ls).2).count m600 = ls.countP isWipe := by
  intro ls
  induction ls with
  | nil => intro st _; rfl
  | cons l ls ih =>
      intro st hne
      simp only [ruRun, List.count_append]
      rw [ruStep_m600_count total st l (hne l (List.mem_cons_self l ls)),
        ih (ruStep total st l).1 fun x hx => hne x (List.mem_cons_of_mem l hx),
        List.countP_cons]
      omega

/-- C3 counterexample to the claim's final count equality as stated: the
one-line input consisting of the literal line `M600` (no WIPE line at all)
produces an output with one `M600` line — passthrough lines equal to `M600`
also count. -/
theorem replace_unloads_m600_cex :
    (["M600".toList] : List Line).countP isWipe = 0 ∧
      (replace_unloads ["M600".toList] 0).count m600 = 1 := by
  refine ⟨by decide, by decide⟩

/-- C3 (amended): a WIPE line always — from any `skip_block` value and any
toolchange count, in particular inside a beyond-threshold block — emits
exactly one `M600` and clears `skip_block`; hence for every input none of
whose lines is itself literally `M600`, and every threshold, the output's
`M600` line count equals the input's WIPE line count. -/
theorem replace_unloads_wipe_m600 (total : Nat) :
    (∀ (sk : Bool) (tc : Nat) (l : Line), isWipe l = true →
        ruStep total (sk, tc) l = ((false, tc), [m600])) ∧
      ∀ lines : List Line, (∀ l ∈ lines, l ≠ m600) →
        (replace_unloads lines total).count m600 = lines.countP isWipe := by
  constructor
  · intro sk tc l h
    have h1 : isUnload l = false := by
      cases hu : isUnload l
      · rfl
      · rw [isWipe_of_isUnload hu] at h
        exact absurd h (by simp)
    simp [ruStep, h1, h]
  · intro lines hne
    exact ruRun_m600_count total lines (false, 0) hne

/-- C3 witness: a WIPE consumed while skipping with the counter past any
threshold still yields `M600` and clears the skip, and the count equality on a
small concrete stream. -/
theorem replace_unloads_wipe_m600_witness :
    ruStep 5 (true, 7) "; CP TOOLCHANGE WIPE".toList = ((false, 7), [m600]) ∧
      (replace_unloads ["; CP TOOLCHANGE WIPE".toList, "a".toList] 5).count m600 =
        (["; CP TOOLCHANGE WIPE".toList, "a".toList] : List Line).countP isWipe :=
  ⟨(replace_unloads_wipe_m600 5).1 true 7 _ (by decide),
   (replace_unloads_wipe_m600 5).2 _ (by decide)⟩

/-! ### Unterminated skip regions (C8) and final `skip_block` (C7) -/

theorem two_pow_32 : (2 : Nat) ^ 32 = 4294967296 := rfl

/-- Release-build `toolchanges += 1` on a `u32`: the (wrapping) counter value
after one line is consumed. -/
def bump (c : Nat) (l : Line) : Nat := if isStart l then (c + 1) % 2 ^ 32 else c

/-- A line that turns `skip_block` on in mode B, given the wrapped counter
value `c` as it stands after the line is consumed (so including this line's
own wrapping increment when it is a START): an UNLOAD marker, or a START
marker past the threshold. -/
def openerB (total c : Nat) (l : Line) : Bool :=
  isUnload l || (isStart l && decide (c > total))

/-- A line that turns `skip_block` off in mode B, given the wrapped counter
value `c` after the line is consumed: a WIPE marker, or an END marker past the
threshold. -/
def closerB (total c : Nat) (l : Line) : Bool :=
  isWipe l || (isEnd l && decide (c > total))

/-- No line of the stream is a mode-B closer, when the wrapped counter starts
at `c`. -/
def noCloserB (total : Nat) : Nat → List Line → Bool
  | _, [] => true
  | c, l :: ls => !closerB total (bump c l) l && noCloserB total (bump c l) ls

theorem rtRun_append (s : Bool) (xs ys : List Line) :
    rtRun s (xs ++ ys) =
      ((rtRun (rtRun s xs).1 ys).1, (rtRun s xs).2 ++ (rtRun (rtRun s xs).1 ys).2) := by
  induction xs generalizing s with
  | nil => simp [rtRun]
  | cons x xs ih => simp [rtRun, ih]

theorem ruRun_append (total : Nat) (st : Bool × Nat) (xs ys : List Line) :
    ruRun total st (xs ++ ys) =
      ((ruRun total (ruRun total st xs).1 ys).1,
        (ruRun total st xs).2 ++ (ruRun total (ruRun total st xs).1 ys).2) := by
  induction xs generalizing st with
  | nil => simp [ruRun]
  | cons x xs ih => simp [ruRun, ih]

/-- One mode-B step advances the `toolchanges` counter by the wrapping
increment exactly on START lines. -/
theorem ruStep_count (total : Nat) (st : Bool × Nat) (l : Line) :
    ((ruStep total st l).1).2 = bump st.2 l := by
  cases h1 : isUnload l
  · cases h2 : isWipe l
    · cases h3 : isStart l
      · cases h4 : isEnd l
        · cases hsk : st.1 <;> simp [ruStep, passLine, bump, h1, h2, h3, h4, hsk]
        · by_cases hgt : st.2 > total <;> cases hsk : st.1 <;>
            simp [ruStep, passLine, bump, h1, h2, h3, h4, hgt, hsk]
      · by_cases hgt : (st.2 + 1) % 4294967296 > total
        · simp [ruStep, bump, h1, h2, h3, hgt]
        · cases hsk : st.1 <;>
            simp [ruStep, passLine, bump, h1, h2, h3, isEnd_of_isStart h3, hgt, hsk]
    · simp [ruStep, bump, h1, h2, isStart_of_isWipe h2]
  · simp [ruStep, bump, h1, isStart_of_isUnload h1]

/-- From a sub-wrap starting value, the final `toolchanges` counter is the
wrapped sum of the initial value and the number of START lines consumed. -/
theorem ruRun_count (total : Nat) : ∀ (ls : List Line) (st : Bool × Nat),
    st.2 < 2 ^ 32 →
    ((ruRun total st ls).1).2 = (st.2 + cStart ls) % 2 ^ 32 := by
  intro ls
  induction ls with
  | nil =>
      intro st hst
      rw [two_pow_32] at hst
      simp [ruRun, cStart, Nat.mod_eq_of_lt hst]
  | cons l ls ih =>
      intro st hst
      rw [two_pow_32] at hst
      have hlt : ((ruStep total st l).1).2 < 2 ^ 32 := by
        rw [ruStep_count]
        cases h3 : isStart l
        · rw [two_pow_32]
          simpa [bump, h3] using hst
        · simp only [bump, h3, if_pos]
          exact Nat.mod_lt _ (by norm_num)
      simp only [ruRun]
      rw [ih (ruStep total st l).1 hlt, ruStep_count]
      cases h3 : isStart l
      · simp [bump, h3, cStart, List.countP_cons]
      · simp [bump, h3, cStart, List.countP_cons]
        omega

/-- Once skipping, mode A swallows everything up to the next END line: with no
END line in the stream, nothing is emitted and `skip_block` stays on. -/
theorem rtRun_swallow : ∀ ls : List Line, (∀ x ∈ ls, isEnd x = false) →
    rtRun true ls = (true, []) := by
  intro ls
  induction ls with
  | nil => intro _; rfl
  | cons l ls ih =>
      intro h
      have h4 := h l (List.mem_cons_self l ls)
      have ih' := ih fun x hx => h x (List.mem_cons_of_mem l hx)
      cases h3 : isStart l <;> simp [rtRun, rtStep, h3, h4, ih']

/-- Once skipping, mode B swallows everything up to the next closer: with no
closer in the stream (judged by the wrapped counter), nothing is emitted and
`skip_block` stays on. -/
theorem ruRun_swallow (total : Nat) : ∀ (ls : List Line) (c : Nat),
    noCloserB total c ls = true →
    ∃ c', ruRun total (true, c) ls = ((true, c'), []) := by
  intro ls
  induction ls with
  | nil => intro c _; exact ⟨c, rfl⟩
  | cons l ls ih =>
      intro c h
      rw [noCloserB] at h
      simp only [Bool.and_eq_true, Bool.not_eq_true'] at h
      obtain ⟨hcl, hrest⟩ := h
      obtain ⟨c', hc'⟩ := ih (bump c l) hrest
      cases h1 : isUnload l
      · cases h2 : isWipe l
        · cases h3 : isStart l
          · have hb : bump c l = c := by simp [bump, h3]
            rw [hb] at hc'
            cases h4 : isEnd l
            · exact ⟨c', by simp [ruRun, ruStep, passLine, h1, h2, h3, h4, hc']⟩
            · simp only [closerB, h2, h4, hb, Bool.false_or, Bool.true_and,
                decide_eq_false_iff_not] at hcl
              exact ⟨c', by simp [ruRun, ruStep, passLine, h1, h2, h3, h4, hcl, hc']⟩
          · simp only [bump, h3, if_pos, two_pow_32] at hc'
            by_cases hgt : (c + 1) % 4294967296 > total
            · exact ⟨c', by simp [ruRun, ruStep, h1, h2, h3, hgt, hc']⟩
            · exact ⟨c', by simp [ruRun, ruStep, passLine, h1, h2, h3,
                isEnd_of_isStart h3, hgt, hc']⟩
        · rw [closerB] at hcl
          rw [h2] at hcl
          simp at hcl
      · have hb : bump c l = c := by simp [bump, isStart_of_isUnload h1]
        rw [hb] at hc'
        exact ⟨c', by simp [ruRun, ruStep, h1, hc']⟩

/-- C8: marker structure is never validated — both rewriters are total over
any line stream (they are plain folds over the lines) — and an unterminated
skip region swallows everything to end-of-stream: in mode A, after a START
with no later END every following line is absent from the output; in mode B,
after an opener (UNLOAD, or a START whose wrapped counter value exceeds the
threshold) with no later closer (WIPE, or an END at a wrapped counter value
exceeding the threshold) every following line is absent from the output. -/
theorem rewriters_swallow_to_eof (total : Nat) (pre post : List Line) (l : Line) :
    (isStart l = true → (∀ x ∈ post, isEnd x = false) →
        replace_toolchanges (pre ++ l :: post) = replace_toolchanges pre) ∧
      (openerB total (cStart (pre ++ [l]) % 2 ^ 32) l = true →
        noCloserB total (cStart (pre ++ [l]) % 2 ^ 32) post = true →
        replace_unloads (pre ++ l :: post) total = replace_unloads pre total) := by
  constructor
  · intro hs hend
    unfold replace_toolchanges
    have h2 : rtRun (rtRun false pre).1 (l :: post) = (true, []) := by
      rw [rtRun]
      simp [rtStep, hs, rtRun_swallow post hend]
    rw [rtRun_append]
    simp [h2]
  · intro hop hnc
    unfold replace_unloads
    have hcnt : ((ruRun total (false, 0) pre).1).2 = cStart pre % 2 ^ 32 := by
      rw [ruRun_count total pre (false, 0) (by norm_num)]
      simp
    have hstep : ruStep total (ruRun total (false, 0) pre).1 l =
        ((true, cStart (pre ++ [l]) % 2 ^ 32), []) := by
      rw [openerB] at hop
      cases h1 : isUnload l
      · rw [h1] at hop
        simp only [Bool.false_or, Bool.and_eq_true, decide_eq_true_eq] at hop
        obtain ⟨h3, hgt⟩ := hop
        have htc : (cStart pre % 2 ^ 32 + 1) % 2 ^ 32 = cStart (pre ++ [l]) % 2 ^ 32 := by
          have h5 : cStart (pre ++ [l]) = cStart pre + 1 := by
            simp [cStart, List.countP_append, List.countP_cons, h3]
          rw [h5, Nat.mod_add_mod]
        rw [two_pow_32] at htc hgt ⊢
        simp [ruStep, h1, isWipe_of_isStart h3, h3, hcnt, two_pow_32, htc, hgt]
      · have h3 : isStart l = false := isStart_of_isUnload h1
        have hc : cStart (pre ++ [l]) = cStart pre := by
          simp [cStart, List.countP_append, List.countP_cons, h3]
        simp [ruStep, h1, hcnt, hc]
    obtain ⟨c', hsw⟩ := ruRun_swallow total post (cStart (pre ++ [l]) % 2 ^ 32) hnc
    rw [two_pow_32] at hsw
    have h2 : (ruRun total (ruRun total (false, 0) pre).1 (l :: post)).2 = [] := by
      rw [ruRun]
      simp [hstep, hsw]
    rw [ruRun_append]
    simp [h2]

/-- C8 witness: in mode A an unterminated START swallows the rest; in mode B a
beyond-threshold START (threshold 0) with no later closer swallows the rest. -/
theorem rewriters_swallow_to_eof_witness :
    (isStart "; CP TOOLCHANGE START".toList = true ∧
      replace_toolchanges ["a".toList, "; CP TOOLCHANGE START".toList, "x".toList,
        "y".toList] = replace_toolchanges ["a".toList]) ∧
      openerB 0 (cStart (["a".toList] ++ ["; CP TOOLCHANGE START".toList]) % 2 ^ 32)
          "; CP TOOLCHANGE START".toList = true ∧
        replace_unloads ["a".toList, "; CP TOOLCHANGE START".toList, "x".toList,
          "y".toList] 0 = replace_unloads ["a".toList] 0 := by
  refine ⟨⟨by decide, ?_⟩, by decide, ?_⟩
  · exact (rewriters_swallow_to_eof 0 ["a".toList]
      ["x".toList, "y".toList] "; CP TOOLCHANGE START".toList).1 (by decide) (by decide)
  · exact (rewriters_swallow_to_eof 0 ["a".toList]
      ["x".toList, "y".toList] "; CP TOOLCHANGE START".toList).2 (by decide) (by decide)

/-- How one mode-B step changes `skip_block`: openers turn it on, closers turn
it off, every other line leaves it alone. The counter argument is the wrapped
value after the line is consumed. -/
theorem ruStep_skip (total : Nat) (s : Bool) (c : Nat) (l : Line) :
    ((ruStep total (s, c) l).1).1 =
      (if openerB total (bump c l) l = true then true
       else if closerB total (bump c l) l = true then false
       else s) := by
  cases h1 : isUnload l
  · cases h2 : isWipe l
    · cases h3 : isStart l
      · cases h4 : isEnd l
        · cases s <;> simp [ruStep, passLine, bump, openerB, closerB, h1, h2, h3, h4]
        · by_cases hgt : c > total
          · simp [ruStep, passLine, bump, openerB, closerB, h1, h2, h3, h4, hgt]
          · cases s <;> simp [ruStep, passLine, bump, openerB, closerB, h1, h2, h3,
              h4, hgt]
      · by_cases hgt : (c + 1) % 4294967296 > total
        · simp [ruStep, bump, openerB, closerB, h1, h2, h3, isEnd_of_isStart h3,
            isWipe_of_isStart h3, hgt]
        · cases s <;> simp [ruStep, passLine, bump, openerB, closerB, h1, h2, h3,
            isEnd_of_isStart h3, isWipe_of_isStart h3, hgt]
    · simp [ruStep, bump, openerB, closerB, h1, h2, isStart_of_isWipe h2]
  · simp [ruStep, bump, openerB, closerB, h1, isStart_of_isUnload h1]

/-- Mode A: if every START line is followed by a later END line, `skip_block`
is `false` after the last line (generalized over the running state: a `true`
state additionally needs some later END line). -/
theorem rtRun_skip_false : ∀ (ls : List Line) (s : Bool),
    (s = true → ∃ j, j < ls.length ∧ isEnd (ls.getD j []) = true) →
    (∀ i, i < ls.length → isStart (ls.getD i []) = true →
      ∃ j, j < ls.length ∧ i < j ∧ isEnd (ls.getD j []) = true) →
    (rtRun s ls).1 = false := by
  intro ls
  induction ls with
  | nil =>
      intro s h1 _
      cases s
      · rfl
      · obtain ⟨j, hj, _⟩ := h1 rfl
        simp at hj
  | cons l ls ih =>
      intro s h1 h2
      show (rtRun (rtStep s l).1 ls).1 = false
      apply ih
      · intro hsk
        cases h3 : isStart l
        · cases h4 : isEnd l
          · have hs : s = true := by
              rw [rtStep, if_neg (by simp [h3]), if_neg (by simp [h4])] at hsk
              cases s
              · simp at hsk
              · rfl
            obtain ⟨j, hjlen, hje⟩ := h1 hs
            cases j with
            | zero => simp [List.getD_cons_zero, h4] at hje
            | succ j =>
                refine ⟨j, by simp only [List.length_cons] at hjlen; omega, ?_⟩
                rw [List.getD_cons_succ] at hje
                exact hje
          · rw [rtStep, if_neg (by simp [h3]), if_pos (by simp [h4])] at hsk
            simp at hsk
        · obtain ⟨j, hjlen, hjpos, hje⟩ := h2 0 (by simp)
            (by simpa [List.getD_cons_zero] using h3)
          cases j with
          | zero => exact absurd hjpos (by omega)
          | succ j =>
              refine ⟨j, by simp only [List.length_cons] at hjlen; omega, ?_⟩
              rw [List.getD_cons_succ] at hje
              exact hje
      · intro i hi hop
        obtain ⟨j, hjlen, hij, hje⟩ := h2 (i + 1)
          (by simp only [List.length_cons]; omega)
          (by rw [List.getD_cons_succ]; exact hop)
        cases j with
        | zero => exact absurd hij (by omega)
        | succ j =>
            refine ⟨j, by simp only [List.length_cons] at hjlen; omega, by omega, ?_⟩
            rw [List.getD_cons_succ] at hje
            exact hje

/-- Mode B: if every opener (UNLOAD, or a START at a wrapped counter value
past the threshold) is followed by a later closer (WIPE, or an END at a
wrapped counter value past the threshold), `skip_block` is `false` after the
last line (generalized over the running state). -/
theorem ruRun_skip_false (total : Nat) : ∀ (ls : List Line) (s : Bool) (c : Nat),
    c < 2 ^ 32 →
    (s = true → ∃ j, j < ls.length ∧
        closerB total ((c + cStart (ls.take (j + 1))) % 2 ^ 32) (ls.getD j []) = true) →
    (∀ i, i < ls.length →
      openerB total ((c + cStart (ls.take (i + 1))) % 2 ^ 32) (ls.getD i []) = true →
      ∃ j, j < ls.length ∧ i < j ∧
        closerB total ((c + cStart (ls.take (j + 1))) % 2 ^ 32) (ls.getD j []) = true) →
    ((ruRun total (s, c) ls).1).1 = false := by
  intro ls
  induction ls with
  | nil =>
      intro s c hc h1 _
      cases s
      · rfl
      · obtain ⟨j, hj, _⟩ := h1 rfl
        simp at hj
  | cons l ls ih =>
      intro s c hc h1 h2
      have harith : ∀ k : Nat, (c + cStart ((l :: ls).take (k + 1))) % 2 ^ 32 =
          (bump c l + cStart (ls.take k)) % 2 ^ 32 := by
        intro k
        cases h3 : isStart l
        · simp [bump, h3, cStart, List.take_succ_cons, List.countP_cons]
        · simp [bump, h3, cStart, List.take_succ_cons, List.countP_cons]
          omega
      have h0 : (c + cStart ((l :: ls).take 1)) % 2 ^ 32 = bump c l := by
        cases h3 : isStart l
        · rw [two_pow_32] at hc
          simp [bump, h3, cStart, List.countP_cons, Nat.mod_eq_of_lt hc]
        · simp [bump, h3, cStart, List.countP_cons]
      have hcl : bump c l < 2 ^ 32 := by
        cases h3 : isStart l
        · simpa [bump, h3] using hc
        · rw [two_pow_32]
          simp only [bump, h3, if_pos, two_pow_32]
          exact Nat.mod_lt _ (by norm_num)
      have hc2 : ((ruStep total (s, c) l).1).2 = bump c l := ruStep_count total (s, c) l
      show ((ruRun total (ruStep total (s, c) l).1 ls).1).1 = false
      rw [show (ruStep total (s, c) l).1 =
        (((ruStep total (s, c) l).1).1, bump c l) from by rw [← hc2]]
      apply ih _ (bump c l) hcl
      · intro hsk
        rw [ruStep_skip total s c l] at hsk
        by_cases hopl : openerB total (bump c l) l = true
        · obtain ⟨j, hjlen, hjpos, hje⟩ := h2 0 (by simp)
            (by rw [h0, List.getD_cons_zero]; exact hopl)
          cases j with
          | zero => exact absurd hjpos (by omega)
          | succ j =>
              refine ⟨j, by simp only [List.length_cons] at hjlen; omega, ?_⟩
              rw [harith (j + 1), List.getD_cons_succ] at hje
              exact hje
        · rw [if_neg hopl] at hsk
          by_cases hcll : closerB total (bump c l) l = true
          · rw [if_pos hcll] at hsk
            simp at hsk
          · rw [if_neg hcll] at hsk
            obtain ⟨j, hjlen, hje⟩ := h1 hsk
            cases j with
            | zero =>
                rw [h0, List.getD_cons_zero] at hje
                exact absurd hje hcll
            | succ j =>
                refine ⟨j, by simp only [List.length_cons] at hjlen; omega, ?_⟩
                rw [harith (j + 1), List.getD_cons_succ] at hje
                exact hje
      · intro i hi hop
        obtain ⟨j, hjlen, hij, hje⟩ := h2 (i + 1)
          (by simp only [List.length_cons]; omega)
          (by rw [harith (i + 1), List.getD_cons_succ]; exact hop)
        cases j with
        | zero => exact absurd hij (by omega)
        | succ j =>
            refine ⟨j, by simp only [List.length_cons] at hjlen; omega, by omega, ?_⟩
            rw [harith (j + 1), List.getD_cons_succ] at hje
            exact hje

/-- C7: in both rewriter modes, on a well-formed input — every line that opens
a skip region (START in mode A; UNLOAD, or a START whose wrapped `u32` counter
value exceeds the threshold, in mode B) is followed by a later matching
closing line (END in mode A; WIPE, or an END whose wrapped counter value
exceeds the threshold, in mode B) — `skip_block` is `false` after the final
line has been processed. -/
theorem skip_block_final_false (lines : List Line) (total : Nat) :
    ((∀ i, i < lines.length → isStart (lines.getD i []) = true →
        ∃ j, j < lines.length ∧ i < j ∧ isEnd (lines.getD j []) = true) →
      (rtRun false lines).1 = false) ∧
      ((∀ i, i < lines.length →
          openerB total (cStart (lines.take (i + 1)) % 2 ^ 32) (lines.getD i []) = true →
          ∃ j, j < lines.length ∧ i < j ∧
            closerB total (cStart (lines.take (j + 1)) % 2 ^ 32) (lines.getD j []) = true) →
        ((ruRun total (false, 0) lines).1).1 = false) := by
  constructor
  · intro h
    exact rtRun_skip_false lines false (fun hs => absurd hs (by simp)) h
  · intro h
    apply ruRun_skip_false total lines false 0 (by norm_num)
    · intro hs
      exact absurd hs (by simp)
    · intro i hi hop
      obtain ⟨j, hj1, hj2, hj3⟩ := h i hi (by simpa using hop)
      exact ⟨j, hj1, hj2, by simpa using hj3⟩

/-- C7 witness: a stream with one block and one UNLOAD…WIPE pair, threshold 0,
so the START is beyond-threshold and closed by the beyond-threshold END. -/
theorem skip_block_final_false_witness :
    (rtRun false ["; CP TOOLCHANGE START".toList, "; CP TOOLCHANGE UNLOAD".toList,
        "; CP TOOLCHANGE WIPE".toList, "; CP TOOLCHANGE END".toList]).1 = false ∧
      ((ruRun 0 (false, 0) ["; CP TOOLCHANGE START".toList,
          "; CP TOOLCHANGE UNLOAD".toList, "; CP TOOLCHANGE WIPE".toList,
          "; CP TOOLCHANGE END".toList]).1).1 = false :=
  ⟨(skip_block_final_false _ 0).1 (by decide), (skip_block_final_false _ 0).2 (by decide)⟩
